import Mathlib

/-!
Shallow embedding of the sandboxed file-operations layer of the
refactoring-swarm repository: `src/tools/sandbox.py` (`SandboxManager`)
and `src/tools/file_ops.py` (`FileOperationResult`, `FileOperations`).

Modelling conventions:
* A path is a list of name components; the filesystem root `/` is the
  empty list and is implicit (it is always a directory and never carries
  an entry of its own).
* The filesystem is an association list from absolute component paths to
  entries (regular file with raw bytes and mtime, directory, symlink).
* `pathlib.Path.resolve()` is modelled by a fuel-bounded resolver that
  eliminates `.` and `..` segments and follows symbolic links; fuel
  exhaustion models the OS-level resolution failure (`OSError`, e.g.
  `ELOOP` on a symbolic-link loop) that `validate_path` catches.
* Text strings are lists of Unicode code points, file contents are lists
  of bytes; the UTF-8 and Latin-1 codecs are implemented explicitly.
  POSIX text-mode semantics are used (`os.linesep` is a line feed, so
  writing performs no newline translation, while reading applies
  universal-newline translation).
-/

/-- A candidate path as handed to the API: absolute or relative, with
components that may still contain `.` and `..` segments (mirrors a
`pathlib.Path` argument before resolution). -/
structure Cand where
  absolute : Bool
  comps : List String
deriving DecidableEq

/-- An absolute path as a list of name components (the result of
resolution, or a filesystem key). -/
abbrev FPath := List String

/-- A filesystem entry: regular file (raw bytes and mtime), directory, or
symbolic link, matching the POSIX view used by `Path.resolve`,
`Path.exists` and `Path.is_file`. -/
inductive Entry
  | file (data : List Nat) (mtime : Nat)
  | dir
  | symlink (target : Cand)
deriving DecidableEq

/-- Filesystem state: an association list from absolute paths to entries.
The root directory itself is implicit (`fsLookup` of `[]` is `none`). -/
abbrev Fs := List (FPath × Entry)

def fsFind : Fs → FPath → Option Entry
  | [], _ => none
  | x :: rest, p => if x.1 = p then some x.2 else fsFind rest p

def fsLookup (fs : Fs) (p : FPath) : Option Entry :=
  if p = [] then none else fsFind fs p

def fsErase : Fs → FPath → Fs
  | [], _ => []
  | x :: rest, p => if x.1 = p then fsErase rest p else x :: fsErase rest p

def fsSet (fs : Fs) (p : FPath) (e : Entry) : Fs :=
  (p, e) :: fsErase fs p

/-- The symbolic-link target stored at `p`, if `p` is a symlink. -/
def symTarget (fs : Fs) (p : FPath) : Option Cand :=
  match fsLookup fs p with
  | some (.symlink t) => some t
  | _ => none

/-- An OS-level failure during path resolution (e.g. `ELOOP`). -/
inductive OsErr
  | eloop
deriving DecidableEq

instance {ε α : Type} [DecidableEq ε] [DecidableEq α] : DecidableEq (Except ε α) := fun a b =>
  match a, b with
  | .error e, .error f =>
    if h : e = f then .isTrue (by subst h; rfl) else .isFalse (fun hh => by cases hh; exact h rfl)
  | .ok x, .ok y =>
    if h : x = y then .isTrue (by subst h; rfl) else .isFalse (fun hh => by cases hh; exact h rfl)
  | .error _, .ok _ => .isFalse (fun hh => by cases hh)
  | .ok _, .error _ => .isFalse (fun hh => by cases hh)

/-- One resolution pass of `Path.resolve()`: walk the components left to
right over an already-resolved prefix `acc`, eliminating `.` and `..`
lexically on the resolved prefix and splicing in symbolic-link targets.
The fuel bounds the total number of steps; running out with components
still pending models the OS-level error on unbounded symlink expansion. -/
def resolveGo (fs : Fs) : Nat → FPath → List String → Except OsErr FPath
  | _, acc, [] => .ok acc
  | 0, _, _ :: _ => .error .eloop
  | fuel + 1, acc, c :: rest =>
    if c = "." then resolveGo fs fuel acc rest
    else if c = ".." then resolveGo fs fuel acc.dropLast rest
    else
      match symTarget fs (acc ++ [c]) with
      | none => resolveGo fs fuel (acc ++ [c]) rest
      | some t => resolveGo fs fuel (if t.absolute then [] else acc) (t.comps ++ rest)

/-- Extra resolution fuel beyond the component count (the bound on
symbolic-link expansion). -/
def resolveFuel : Nat := 64

/-- Embedding of `Path(path).resolve()`: a relative path is made absolute against the
process working directory (`os.getcwd()`, not the sandbox root), then
the whole path is canonicalized. -/
def resolveCand (fs : Fs) (cwd : FPath) (p : Cand) : Except OsErr FPath :=
  let comps := if p.absolute then p.comps else cwd ++ p.comps
  resolveGo fs (resolveFuel + comps.length) [] comps

/-- Modelled from the spec: the `SecurityError` exception class lives in
`src/tools/exceptions.py`, which is not among the provided sources.  Its
shape is fixed by the constructor call in `sandbox.py`
(`message`, `attempted_path=...`, `sandbox_root=...`) and by section 7 of
the spec (`SecurityViolation` carries the attempted path and the sandbox
root); the human-readable `message` string is a rendering of these two
fields and is not modelled separately. -/
structure SecurityError where
  attempted_path : Cand
  sandbox_root : FPath
deriving DecidableEq

/-- Embedding of `SandboxManager`: holds the canonical sandbox root fixed at
construction time (`Path(sandbox_path).resolve()`). -/
structure SandboxManager where
  sandbox_root : FPath
deriving DecidableEq

/-- Embedding of `SandboxManager.validate_path`: resolve the candidate, require the
result to be the sandbox root or a descendant of it
(`full_path.relative_to(self.sandbox_root)`), and return the resolved
path; a `ValueError` from `relative_to` or an `OSError` from resolution
is converted to `SecurityError`. -/
def validate_path (fs : Fs) (sm : SandboxManager) (cwd : FPath) (p : Cand) :
    Except SecurityError FPath :=
  match resolveCand fs cwd p with
  | .error _ => .error { attempted_path := p, sandbox_root := sm.sandbox_root }
  | .ok full =>
    if sm.sandbox_root.isPrefixOf full then .ok full
    else .error { attempted_path := p, sandbox_root := sm.sandbox_root }

/-- Character encodings accepted by the file operations: the `utf-8`
default and the `latin-1` fallback. -/
inductive Enc
  | utf8
  | latin1
deriving DecidableEq

/-- UTF-8 encoding of a single Unicode code point; `none` on a surrogate
or an out-of-range value (`UnicodeEncodeError`). -/
def encodeUtf8Char (c : Nat) : Option (List Nat) :=
  if c < 0x80 then some [c]
  else if c < 0x800 then some [0xC0 + c / 0x40, 0x80 + c % 0x40]
  else if 0xD800 ≤ c ∧ c < 0xE000 then none
  else if c < 0x10000 then
    some [0xE0 + c / 0x1000, 0x80 + c / 0x40 % 0x40, 0x80 + c % 0x40]
  else if c < 0x110000 then
    some [0xF0 + c / 0x40000, 0x80 + c / 0x1000 % 0x40, 0x80 + c / 0x40 % 0x40,
      0x80 + c % 0x40]
  else none

/-- UTF-8 encoding of a string of code points. -/
def encodeUtf8 : List Nat → Option (List Nat)
  | [] => some []
  | c :: rest =>
    match encodeUtf8Char c, encodeUtf8 rest with
    | some bs, some rs => some (bs ++ rs)
    | _, _ => none

/-- Decoding of one UTF-8 scalar value from a head byte and the
remaining bytes (the CPython strict `utf-8` codec): rejects
continuation-byte leads (`0x80`-`0xC1`, which includes overlong 2-byte
leads), overlong 3- and 4-byte forms, surrogates and values beyond
U+10FFFF; `none` models `UnicodeDecodeError`. -/
def decodeOne (b : Nat) (rest : List Nat) : Option (Nat × List Nat) :=
  if b < 0x80 then some (b, rest)
  else if b < 0xC2 then none
  else if b < 0xE0 then
    match rest with
    | b1 :: rest1 =>
      if 0x80 ≤ b1 ∧ b1 < 0xC0 then some ((b - 0xC0) * 0x40 + (b1 - 0x80), rest1)
      else none
    | [] => none
  else if b < 0xF0 then
    match rest with
    | b1 :: b2 :: rest2 =>
      if (0x80 ≤ b1 ∧ b1 < 0xC0) ∧ (0x80 ≤ b2 ∧ b2 < 0xC0) ∧
          (b = 0xE0 → 0xA0 ≤ b1) ∧ (b = 0xED → b1 < 0xA0) then
        some ((b - 0xE0) * 0x1000 + (b1 - 0x80) * 0x40 + (b2 - 0x80), rest2)
      else none
    | _ => none
  else if b < 0xF5 then
    match rest with
    | b1 :: b2 :: b3 :: rest3 =>
      if (0x80 ≤ b1 ∧ b1 < 0xC0) ∧ (0x80 ≤ b2 ∧ b2 < 0xC0) ∧ (0x80 ≤ b3 ∧ b3 < 0xC0) ∧
          (b = 0xF0 → 0x90 ≤ b1) ∧ (b = 0xF4 → b1 < 0x90) then
        some ((b - 0xF0) * 0x40000 + (b1 - 0x80) * 0x1000 + (b2 - 0x80) * 0x40 + (b3 - 0x80),
          rest3)
      else none
    | _ => none
  else none

/-- Scalar-by-scalar UTF-8 decoding; the fuel only bounds the recursion
and is set to the byte count, which each step strictly exceeds, so the
fuel branch is unreachable. -/
def decodeLoop : Nat → List Nat → Option (List Nat)
  | _, [] => some []
  | 0, _ :: _ => none
  | fuel + 1, b :: rest =>
    match decodeOne b rest with
    | none => none
    | some (c, rest2) =>
      match decodeLoop fuel rest2 with
      | some s => some (c :: s)
      | none => none

/-- Strict UTF-8 decoding of a byte string; `none` models
`UnicodeDecodeError`. -/
def decodeUtf8 (bs : List Nat) : Option (List Nat) := decodeLoop bs.length bs

/-- Latin-1 decoding maps each byte to the code point of the same value;
it never fails ("a permissive single-byte encoding"). -/
def decodeLatin1 (bs : List Nat) : List Nat := bs

/-- Latin-1 encoding: code points up to U+00FF map to bytes of the same
value, anything larger raises `UnicodeEncodeError`. -/
def encodeLatin1 (s : List Nat) : Option (List Nat) :=
  if s.all (fun c => c < 0x100) then some s else none

def encodeE : Enc → List Nat → Option (List Nat)
  | .utf8, s => encodeUtf8 s
  | .latin1, s => encodeLatin1 s

def decodeE : Enc → List Nat → Option (List Nat)
  | .utf8, bs => decodeUtf8 bs
  | .latin1, bs => some (decodeLatin1 bs)

/-- Universal-newline translation applied by text-mode reading
(`open(..., mode="r")` with `newline=None`): `\r\n` and `\r` become
`\n`. -/
def univNewlines : List Nat → List Nat
  | [] => []
  | 13 :: 10 :: rest => 10 :: univNewlines rest
  | 13 :: rest => 10 :: univNewlines rest
  | c :: rest => c :: univNewlines rest

/-- Error classification carried in `FileOperationResult.error` (the
source formats these as strings: `Security violation: ...`,
`File not found: ...`, `Not a file: ...`, `Write failed: ...`). -/
inductive ErrMsg
  | securityViolation (attempted : Cand) (root : FPath)
  | fileNotFound (p : FPath)
  | notAFile (p : FPath)
  | writeFailed
deriving DecidableEq

/-- The `metadata` dictionary of a `FileOperationResult`; fields absent
from the dictionary are `none`. -/
structure Metadata where
  size_bytes : Option Nat := none
  encoding : Option Enc := none
  line_count : Option Nat := none
  modified_time : Option Nat := none
  backup_created : Option Bool := none
  backup_path : Option FPath := none
deriving DecidableEq

/-- Embedding of `FileOperationResult`: structured success/failure information, no
exceptions for flow control. -/
structure FileOperationResult where
  success : Bool
  content : Option (List Nat) := none
  filepath : Option Cand := none
  error : Option ErrMsg := none
  metadata : Metadata := {}
deriving DecidableEq

/-- Embedding of `content.count(chr(10))`: the number of line feeds in a string. -/
def countNl (s : List Nat) : Nat := s.count 10

/-- Embedding of `safe_path.with_suffix(safe_path.suffix + ".tmp")`: for any file name
this appends `.tmp` to the name (the old suffix is stripped and re-added
with `.tmp` behind it), giving a sibling path. -/
def tempPath (p : FPath) : FPath :=
  p.dropLast ++ [p.getLastD "" ++ ".tmp"]

/-- Modelled from the spec: the backup location used by
`FileOperations.create_backup`, whose definition is not among the
provided sources (only its caller in `write_file` is).  Section 4.4:
"a deterministic backup path (suffix or sibling-directory convention,
collision-avoided via a timestamp ...)". -/
def backupPath (p : FPath) (now : Nat) : FPath :=
  p.dropLast ++ [p.getLastD "" ++ ".bak." ++ Nat.repr now]

/-- Modelled from the spec: `FileOperations.create_backup` (section 4.4),
called by `write_file` but not itself among the provided sources.  It
requires the path to be an existing regular file, copies its current
bytes to the deterministic backup location and reports that location;
any failure is reported to the caller (`write_file` treats it as
non-fatal) and the source file is never mutated. -/
def createBackupOp (fs : Fs) (now : Nat) (p : FPath) : Option FPath × Fs :=
  match fsLookup fs p with
  | some (.file data _) =>
    (some (backupPath p now), fsSet fs (backupPath p now) (.file data now))
  | _ => (none, fs)

/-- Outcome of a filesystem mutation step: the step either succeeded or
raised, and in both cases the filesystem may have been touched. -/
inductive StepOut
  | ok (fs : Fs)
  | fail (fs : Fs)
deriving DecidableEq

/-- The backup branch of `write_file`:
`if create_backup and safe_path.exists(): backup_result = self.create_backup(safe_path) ...`,
yielding the recorded backup path (if any) and the filesystem after the
step. -/
def backupStep (create_backup : Bool) (fs1 : Fs) (now : Nat) (safe : FPath) :
    Option FPath × Fs :=
  if create_backup = true ∧ (fsLookup fs1 safe).isSome then createBackupOp fs1 now safe
  else (none, fs1)

/-- One `mkdir` with `exist_ok`: create a directory entry, succeed if a
directory is already present, raise if a non-directory is in the way. -/
def mkdirOne (fs : Fs) (p : FPath) : StepOut :=
  match fsLookup fs p with
  | none => .ok (fsSet fs p .dir)
  | some .dir => .ok fs
  | some _ => .fail fs

/-- Embedding of `safe_path.parent.mkdir(parents=True, exist_ok=True)`: create each
ancestor in turn; directories created before a failure persist. -/
def mkdirPath : Fs → FPath → List String → StepOut
  | fs, _, [] => .ok fs
  | fs, acc, c :: rest =>
    match mkdirOne fs (acc ++ [c]) with
    | .fail fs1 => .fail fs1
    | .ok fs1 => mkdirPath fs1 (acc ++ [c]) rest

def mkdirParents (fs : Fs) (dirp : FPath) : StepOut :=
  mkdirPath fs [] dirp

/-- Embedding of `temp_path.write_text(content, encoding=encoding)`: open for writing
(raises if a directory is in the way; writing through a symbolic link is
outside this embedding and modelled as a failure), encode and store the
bytes.  On an encoding error the file has already been created and
truncated by `open`, so an empty file is left behind. -/
def writeTextOp (fs : Fs) (now : Nat) (p : FPath) (encoding : Enc) (s : List Nat) : StepOut :=
  if p = [] then .fail fs
  else
    match fsLookup fs p with
    | some .dir => .fail fs
    | some (.symlink _) => .fail fs
    | _ =>
      match encodeE encoding s with
      | some bytes => .ok (fsSet fs p (.file bytes now))
      | none => .fail (fsSet fs p (.file [] now))

/-- Embedding of `temp_path.replace(safe_path)` (`os.replace` / `rename(2)`): moves
`src` onto `dst`, silently replacing an existing file or symlink at
`dst`; raises if `dst` is a directory. -/
def replaceOp (fs : Fs) (src dst : FPath) : Except Unit Fs :=
  match fsLookup fs src with
  | none => .error ()
  | some e =>
    match fsLookup fs dst with
    | some .dir => .error ()
    | _ => .ok (fsSet (fsErase fs src) dst e)

/-- Embedding of `FileOperations.read_file`: validate the path, check existence and
regular-file-ness, read and decode with the requested encoding falling
back to Latin-1 on `UnicodeDecodeError`, and return a structured result.
The operation performs no filesystem mutation, which the type records by
returning no filesystem.  (The symlink branch of the lookup is
unreachable for validated paths: canonicalization never returns a path
whose entry is a symlink.) -/
def read_file (fs : Fs) (sm : SandboxManager) (cwd : FPath) (filepath : Cand)
    (encoding : Enc) : FileOperationResult :=
  match validate_path fs sm cwd filepath with
  | .error e =>
    { success := false, filepath := some filepath,
      error := some (.securityViolation e.attempted_path e.sandbox_root) }
  | .ok safe =>
    match fsLookup fs safe with
    | none =>
      { success := false, filepath := some ⟨true, safe⟩, error := some (.fileNotFound safe) }
    | some .dir =>
      { success := false, filepath := some ⟨true, safe⟩, error := some (.notAFile safe) }
    | some (.symlink _) =>
      { success := false, filepath := some ⟨true, safe⟩, error := some (.notAFile safe) }
    | some (.file data mtime) =>
      let dec : List Nat × Enc :=
        match decodeE encoding data with
        | some s => (s, encoding)
        | none => (decodeLatin1 data, Enc.latin1)
      let content := univNewlines dec.1
      { success := true, content := some content, filepath := some ⟨true, safe⟩,
        metadata := { size_bytes := some data.length, encoding := some dec.2,
                      line_count := some (countNl content + 1),
                      modified_time := some mtime } }

/-- Embedding of `FileOperations.write_file`: validate the path, create parent
directories, optionally back up an existing target, stage the content in
a sibling temporary file and atomically replace the target with it; any
internal fault is caught and converted to a failure result. -/
def write_file (fs : Fs) (now : Nat) (sm : SandboxManager) (cwd : FPath)
    (filepath : Cand) (content : List Nat) (encoding : Enc) (create_backup : Bool) :
    FileOperationResult × Fs :=
  match validate_path fs sm cwd filepath with
  | .error e =>
    ({ success := false, filepath := some filepath,
       error := some (.securityViolation e.attempted_path e.sandbox_root) }, fs)
  | .ok safe =>
    match mkdirParents fs safe.dropLast with
    | .fail fs1 =>
      ({ success := false, filepath := some filepath, error := some .writeFailed }, fs1)
    | .ok fs1 =>
      let bk : Option FPath × Fs := backupStep create_backup fs1 now safe
      match writeTextOp bk.2 now (tempPath safe) encoding content with
      | .fail fs3 =>
        ({ success := false, filepath := some filepath, error := some .writeFailed }, fs3)
      | .ok fs3 =>
        match replaceOp fs3 (tempPath safe) safe with
        | .error _ =>
          ({ success := false, filepath := some filepath, error := some .writeFailed }, fs3)
        | .ok fs4 =>
          match fsLookup fs4 safe with
          | some (.file bytes _) =>
            ({ success := true, filepath := some ⟨true, safe⟩,
               metadata := { size_bytes := some bytes.length, encoding := some encoding,
                             line_count := some (countNl content + 1),
                             backup_created := some bk.1.isSome,
                             backup_path := bk.1 } }, fs4)
          | _ =>
            ({ success := false, filepath := some filepath, error := some .writeFailed }, fs4)

/-! ### Association-list lemmas -/

theorem fsFind_mem {fs : Fs} {p : FPath} {e : Entry} (h : fsFind fs p = some e) :
    (p, e) ∈ fs := by
  induction fs with
  | nil => simp [fsFind] at h
  | cons x rest ih =>
    rw [fsFind] at h
    split at h
    · rename_i hx
      injection h with h2
      subst h2
      obtain ⟨a, b⟩ := x
      simp only at hx
      subst hx
      exact List.mem_cons_self _ _
    · exact List.mem_cons_of_mem _ (ih h)

theorem fsFind_erase_ne {fs : Fs} {p q : FPath} (h : q ≠ p) :
    fsFind (fsErase fs p) q = fsFind fs q := by
  induction fs with
  | nil => rfl
  | cons x rest ih =>
    by_cases hx : x.1 = p
    · rw [fsErase, if_pos hx, ih, fsFind,
        if_neg (by rw [hx]; exact fun hh => h hh.symm)]
    · rw [fsErase, if_neg hx, fsFind, fsFind]
      by_cases hq : x.1 = q
      · rw [if_pos hq, if_pos hq]
      · rw [if_neg hq, if_neg hq, ih]

theorem fsFind_erase_self {fs : Fs} {p : FPath} :
    fsFind (fsErase fs p) p = none := by
  induction fs with
  | nil => rfl
  | cons x rest ih =>
    by_cases hx : x.1 = p
    · rw [fsErase, if_pos hx, ih]
    · rw [fsErase, if_neg hx, fsFind, if_neg hx, ih]

theorem fsLookup_set_self {fs : Fs} {p : FPath} {e : Entry} (h : p ≠ []) :
    fsLookup (fsSet fs p e) p = some e := by
  simp [fsLookup, fsSet, fsFind, h]

theorem fsLookup_set_ne {fs : Fs} {p q : FPath} {e : Entry} (h : q ≠ p) :
    fsLookup (fsSet fs p e) q = fsLookup fs q := by
  by_cases hq : q = []
  · simp [fsLookup, hq]
  · rw [fsLookup, if_neg hq, fsSet, fsFind, if_neg (fun hh : p = q => h hh.symm),
      fsFind_erase_ne h, fsLookup, if_neg hq]

theorem fsLookup_erase_ne {fs : Fs} {p q : FPath} (h : q ≠ p) :
    fsLookup (fsErase fs p) q = fsLookup fs q := by
  by_cases hq : q = []
  · simp [fsLookup, hq]
  · rw [fsLookup, if_neg hq, fsFind_erase_ne h, fsLookup, if_neg hq]

theorem fsLookup_erase_self {fs : Fs} {p : FPath} :
    fsLookup (fsErase fs p) p = none := by
  by_cases hq : p = []
  · simp [fsLookup, hq]
  · rw [fsLookup, if_neg hq, fsFind_erase_self]

/-! ### Resolution lemmas -/

/-- A component list with no `.` or `..` segments. -/
def PlainComps (l : List String) : Prop := ∀ c ∈ l, c ≠ "." ∧ c ≠ ".."

/-- No prefix of `l` is a symbolic link in `fs`. -/
def NoSymPre (fs : Fs) (l : FPath) : Prop :=
  ∀ pre, pre <+: l → symTarget fs pre = none

theorem symTarget_nil {fs : Fs} : symTarget fs [] = none := by
  simp [symTarget, fsLookup]

theorem noSymPre_nil {fs : Fs} : NoSymPre fs [] := by
  intro pre hpre
  rw [List.prefix_nil.mp hpre]
  exact symTarget_nil

theorem plainComps_nil : PlainComps [] := by
  intro c hc
  simp at hc

theorem plainComps_dropLast {l : List String} (h : PlainComps l) : PlainComps l.dropLast :=
  fun c hc => h c ((List.dropLast_sublist l).subset hc)

theorem dropLast_isPre (l : List String) : l.dropLast <+: l := by
  by_cases hl : l = []
  · subst hl
    exact List.prefix_refl []
  · exact ⟨[l.getLast hl], List.dropLast_append_getLast hl⟩

theorem noSymPre_dropLast {fs : Fs} {l : FPath} (h : NoSymPre fs l) :
    NoSymPre fs l.dropLast :=
  fun pre hpre => h pre (hpre.trans (dropLast_isPre l))

theorem plainComps_concat {l : List String} {c : String} (h : PlainComps l)
    (h1 : c ≠ ".") (h2 : c ≠ "..") : PlainComps (l ++ [c]) := by
  intro x hx
  rcases List.mem_append.mp hx with hx | hx
  · exact h x hx
  · simp at hx
    subst hx
    exact ⟨h1, h2⟩

theorem noSymPre_concat {fs : Fs} {l : FPath} {c : String} (h : NoSymPre fs l)
    (hc : symTarget fs (l ++ [c]) = none) : NoSymPre fs (l ++ [c]) := by
  intro pre hpre
  rcases List.prefix_concat_iff.mp hpre with hpre | hpre
  · rw [hpre]; exact hc
  · exact h pre hpre

/-- Any successful resolution yields a canonical path: no `.` or `..`
segments remain and no prefix of the result is a symbolic link. -/
theorem resolveGo_inv {fs : Fs} :
    ∀ (fuel : Nat) (acc : FPath) (comps : List String) (q : FPath),
      PlainComps acc → NoSymPre fs acc →
      resolveGo fs fuel acc comps = .ok q → PlainComps q ∧ NoSymPre fs q := by
  intro fuel
  induction fuel with
  | zero =>
    intro acc comps q hp hn h
    cases comps with
    | nil =>
      rw [resolveGo] at h
      injection h with h
      subst h
      exact ⟨hp, hn⟩
    | cons c rest => rw [resolveGo] at h; cases h
  | succ fuel ih =>
    intro acc comps q hp hn h
    cases comps with
    | nil =>
      rw [resolveGo] at h
      injection h with h
      subst h
      exact ⟨hp, hn⟩
    | cons c rest =>
      rw [resolveGo] at h
      by_cases hc : c = "."
      · rw [if_pos hc] at h
        exact ih _ _ _ hp hn h
      · rw [if_neg hc] at h
        by_cases hc2 : c = ".."
        · rw [if_pos hc2] at h
          exact ih _ _ _ (plainComps_dropLast hp) (noSymPre_dropLast hn) h
        · rw [if_neg hc2] at h
          revert h
          cases hst : symTarget fs (acc ++ [c]) with
          | none =>
            intro h
            exact ih _ _ _ (plainComps_concat hp hc hc2) (noSymPre_concat hn hst) h
          | some t =>
            intro h
            dsimp only at h
            by_cases ht : t.absolute
            · rw [if_pos ht] at h
              exact ih _ _ _ plainComps_nil noSymPre_nil h
            · rw [if_neg ht] at h
              exact ih _ _ _ hp hn h

/-- Resolving an already-canonical path is the identity (given enough
fuel). -/
theorem resolveGo_self {fs : Fs} :
    ∀ (fuel : Nat) (acc : FPath) (rest : List String),
      rest.length ≤ fuel → PlainComps rest →
      NoSymPre fs (acc ++ rest) →
      resolveGo fs fuel acc rest = .ok (acc ++ rest) := by
  intro fuel
  induction fuel with
  | zero =>
    intro acc rest hlen _ _
    cases rest with
    | nil => rw [resolveGo, List.append_nil]
    | cons c r => simp at hlen
  | succ fuel ih =>
    intro acc rest hlen hp hn
    cases rest with
    | nil => rw [resolveGo, List.append_nil]
    | cons c r =>
      have hc := hp c (List.mem_cons_self c r)
      have heq : acc ++ c :: r = (acc ++ [c]) ++ r := by simp
      rw [resolveGo, if_neg hc.1, if_neg hc.2,
        hn (acc ++ [c]) (heq ▸ List.prefix_append (acc ++ [c]) r)]
      have := ih (acc ++ [c]) r (by simp at hlen; omega)
        (fun x hx => hp x (List.mem_cons_of_mem c hx)) (heq ▸ hn)
      rw [this, heq]

/-- Whether an entry is a symbolic link. -/
def entryIsSymlink : Entry → Bool
  | .symlink _ => true
  | _ => false

/-- Predicate `NoSymlinks fs`: the filesystem contains no symbolic-link entries. -/
def NoSymlinks (fs : Fs) : Prop := ∀ x ∈ fs, entryIsSymlink x.2 = false

instance (fs : Fs) : Decidable (NoSymlinks fs) := by
  unfold NoSymlinks
  infer_instance

theorem symTarget_eq_none {fs : Fs} (h : NoSymlinks fs) (p : FPath) :
    symTarget fs p = none := by
  unfold symTarget
  by_cases hp : p = []
  · rw [fsLookup, if_pos hp]
  · rw [fsLookup, if_neg hp]
    cases hf : fsFind fs p with
    | none => rfl
    | some e =>
      cases e with
      | symlink t => exact absurd (h _ (fsFind_mem hf)) (by intro he; cases he)
      | file data mtime => rfl
      | dir => rfl

/-- In a symlink-free filesystem, resolution is purely lexical: it does
not depend on the filesystem at all. -/
theorem resolveGo_congr {fs fs' : Fs} (h : NoSymlinks fs) (h' : NoSymlinks fs') :
    ∀ (fuel : Nat) (acc : FPath) (comps : List String),
      resolveGo fs fuel acc comps = resolveGo fs' fuel acc comps := by
  intro fuel
  induction fuel with
  | zero =>
    intro acc comps
    cases comps with
    | nil => rw [resolveGo, resolveGo]
    | cons c r => rw [resolveGo, resolveGo]
  | succ fuel ih =>
    intro acc comps
    cases comps with
    | nil => rw [resolveGo, resolveGo]
    | cons c r =>
      rw [resolveGo, resolveGo, symTarget_eq_none h, symTarget_eq_none h']
      by_cases hc : c = "."
      · rw [if_pos hc, if_pos hc, ih]
      · rw [if_neg hc, if_neg hc]
        by_cases hc2 : c = ".."
        · rw [if_pos hc2, if_pos hc2, ih]
        · rw [if_neg hc2, if_neg hc2]
          exact ih _ _

theorem resolveCand_congr {fs fs' : Fs} {cwd : FPath} {p : Cand}
    (h : NoSymlinks fs) (h' : NoSymlinks fs') :
    resolveCand fs cwd p = resolveCand fs' cwd p := by
  unfold resolveCand
  exact resolveGo_congr h h' _ _ _

/-- The canonical form returned by a successful resolution resolves to
itself. -/
theorem resolveCand_ok_self {fs : Fs} {cwd : FPath} {p : Cand} {q : FPath}
    (h : resolveCand fs cwd p = .ok q) :
    resolveCand fs cwd ⟨true, q⟩ = .ok q := by
  unfold resolveCand at h ⊢
  simp only at h ⊢
  have hinv := resolveGo_inv _ _ _ _ plainComps_nil noSymPre_nil h
  have hself := @resolveGo_self fs (resolveFuel + q.length) [] q
    (Nat.le_add_left _ _) hinv.1 (by rw [List.nil_append]; exact hinv.2)
  simp only [List.nil_append] at hself
  simpa using hself

/-! ### Claim C1 -/

/-- C1: for every candidate path that resolves (after canonicalization)
outside the sandbox root, `validate_path` fails with a `SecurityError`
carrying the attempted path and the sandbox root, and a `read_file` or
`write_file` call on that path returns a security-violation failure
result; the failed `write_file` call leaves the filesystem unchanged
(and `read_file` performs no mutation at all, as its type records). -/
theorem C1_outside_paths_rejected_without_mutation
    (fs : Fs) (now : Nat) (sm : SandboxManager) (cwd : FPath) (p : Cand) (q : FPath)
    (content : List Nat) (enc : Enc) (b : Bool)
    (hres : resolveCand fs cwd p = .ok q)
    (hout : sm.sandbox_root.isPrefixOf q = false) :
    validate_path fs sm cwd p = .error ⟨p, sm.sandbox_root⟩ ∧
    read_file fs sm cwd p enc =
      { success := false, filepath := some p,
        error := some (.securityViolation p sm.sandbox_root) } ∧
    write_file fs now sm cwd p content enc b =
      ({ success := false, filepath := some p,
         error := some (.securityViolation p sm.sandbox_root) }, fs) := by
  have hval : validate_path fs sm cwd p = .error ⟨p, sm.sandbox_root⟩ := by
    unfold validate_path
    rw [hres]
    dsimp only
    rw [if_neg (by rw [hout]; exact Bool.false_ne_true)]
  refine ⟨hval, ?_, ?_⟩
  · unfold read_file
    rw [hval]
  · unfold write_file
    rw [hval]

theorem C1_outside_paths_rejected_without_mutation_witness :
    validate_path [] ⟨["tmp", "sb"]⟩ ["tmp", "sb"]
        (Cand.mk false ["..", "..", "etc", "passwd"]) =
      .error ⟨Cand.mk false ["..", "..", "etc", "passwd"], ["tmp", "sb"]⟩ ∧
    write_file [] 0 ⟨["tmp", "sb"]⟩ ["tmp", "sb"]
        (Cand.mk false ["..", "..", "etc", "passwd"]) [120] .utf8 true =
      ({ success := false, filepath := some (Cand.mk false ["..", "..", "etc", "passwd"]),
         error := some (.securityViolation (Cand.mk false ["..", "..", "etc", "passwd"])
           ["tmp", "sb"]) }, []) := by
  have h := C1_outside_paths_rejected_without_mutation [] 0 ⟨["tmp", "sb"]⟩ ["tmp", "sb"]
    (Cand.mk false ["..", "..", "etc", "passwd"]) ["etc", "passwd"] [120] .utf8 true
    (by decide) (by decide)
  exact ⟨h.1, h.2.2⟩

/-! ### Claim C9 -/

/-- C9: when canonicalization itself reports an OS-level error (the
`OSError` branch of the `except` clause in `validate_path`, e.g. a
symbolic-link loop), `validate_path` raises `SecurityError` rather than
an I/O error, and `read_file` and `write_file` consequently classify the
failure as a security violation (not `File not found` or
`Write failed`), with the filesystem left unchanged by `write_file`. -/
theorem C9_resolution_oserror_is_security_violation
    (fs : Fs) (now : Nat) (sm : SandboxManager) (cwd : FPath) (p : Cand) (er : OsErr)
    (content : List Nat) (enc : Enc) (b : Bool)
    (hres : resolveCand fs cwd p = .error er) :
    validate_path fs sm cwd p = .error ⟨p, sm.sandbox_root⟩ ∧
    read_file fs sm cwd p enc =
      { success := false, filepath := some p,
        error := some (.securityViolation p sm.sandbox_root) } ∧
    write_file fs now sm cwd p content enc b =
      ({ success := false, filepath := some p,
         error := some (.securityViolation p sm.sandbox_root) }, fs) := by
  have hval : validate_path fs sm cwd p = .error ⟨p, sm.sandbox_root⟩ := by
    unfold validate_path
    rw [hres]
  refine ⟨hval, ?_, ?_⟩
  · unfold read_file
    rw [hval]
  · unfold write_file
    rw [hval]

theorem C9_resolution_oserror_is_security_violation_witness :
    validate_path
        [(["tmp"], Entry.dir), (["tmp", "sb"], Entry.dir),
         (["tmp", "sb", "x"], Entry.symlink (Cand.mk true ["tmp", "sb", "x"]))]
        ⟨["tmp", "sb"]⟩ [] (Cand.mk true ["tmp", "sb", "x"]) =
      .error ⟨Cand.mk true ["tmp", "sb", "x"], ["tmp", "sb"]⟩ ∧
    read_file
        [(["tmp"], Entry.dir), (["tmp", "sb"], Entry.dir),
         (["tmp", "sb", "x"], Entry.symlink (Cand.mk true ["tmp", "sb", "x"]))]
        ⟨["tmp", "sb"]⟩ [] (Cand.mk true ["tmp", "sb", "x"]) .utf8 =
      { success := false, filepath := some (Cand.mk true ["tmp", "sb", "x"]),
        error := some (.securityViolation (Cand.mk true ["tmp", "sb", "x"]) ["tmp", "sb"]) } := by
  have h := C9_resolution_oserror_is_security_violation
    [(["tmp"], Entry.dir), (["tmp", "sb"], Entry.dir),
     (["tmp", "sb", "x"], Entry.symlink (Cand.mk true ["tmp", "sb", "x"]))]
    0 ⟨["tmp", "sb"]⟩ [] (Cand.mk true ["tmp", "sb", "x"]) .eloop [120] .utf8 true
    (by decide)
  exact ⟨h.1, h.2.1⟩

/-! ### Claim C8 -/

/-- C8: for every path that resolves inside the sandbox root (the root
itself included), `validate_path` returns the canonical resolved form,
and validation is idempotent: validating the returned path again yields
the same path. -/
theorem C8_validate_canonical_idempotent
    (fs : Fs) (sm : SandboxManager) (cwd : FPath) (p : Cand) (q : FPath)
    (hres : resolveCand fs cwd p = .ok q)
    (hin : sm.sandbox_root.isPrefixOf q = true) :
    validate_path fs sm cwd p = .ok q ∧
    validate_path fs sm cwd ⟨true, q⟩ = .ok q := by
  constructor
  · unfold validate_path
    rw [hres]
    dsimp only
    rw [if_pos hin]
  · unfold validate_path
    rw [resolveCand_ok_self hres]
    dsimp only
    rw [if_pos hin]

theorem C8_validate_canonical_idempotent_witness :
    (validate_path [(["tmp"], Entry.dir), (["tmp", "sb"], Entry.dir)] ⟨["tmp", "sb"]⟩
        ["home"] (Cand.mk true ["tmp", "sb", "d", "..", ".", "a.py"]) =
      .ok ["tmp", "sb", "a.py"] ∧
    validate_path [(["tmp"], Entry.dir), (["tmp", "sb"], Entry.dir)] ⟨["tmp", "sb"]⟩
        ["home"] ⟨true, ["tmp", "sb", "a.py"]⟩ =
      .ok ["tmp", "sb", "a.py"]) ∧
    (validate_path [] ⟨["tmp", "sb"]⟩ [] (Cand.mk true ["tmp", "sb"]) = .ok ["tmp", "sb"] ∧
    validate_path [] ⟨["tmp", "sb"]⟩ [] ⟨true, ["tmp", "sb"]⟩ = .ok ["tmp", "sb"]) := by
  constructor
  · exact C8_validate_canonical_idempotent
      [(["tmp"], Entry.dir), (["tmp", "sb"], Entry.dir)] ⟨["tmp", "sb"]⟩ ["home"]
      (Cand.mk true ["tmp", "sb", "d", "..", ".", "a.py"]) ["tmp", "sb", "a.py"]
      (by decide) (by decide)
  · exact C8_validate_canonical_idempotent [] ⟨["tmp", "sb"]⟩ []
      (Cand.mk true ["tmp", "sb"]) ["tmp", "sb"] (by decide) (by decide)

/-! ### Claim C3 -/

/-- C3: the claim (and the docstrings of `read_file`/`write_file`, which
promise paths "relative to sandbox") requires relative candidate paths to
be interpreted relative to the sandbox root regardless of the working
directory.  The code instead resolves them against the process working
directory (`Path(path).resolve()`): with sandbox root `/tmp/sb` and
working directory `/home/user`, `write_file("a.py", "x=1")` is rejected
as a security violation, the filesystem is unchanged and `/tmp/sb/a.py`
is not created; the scenario only succeeds when the working directory
happens to be the sandbox root. -/
theorem C3_relative_paths_resolved_against_cwd_not_root :
    (write_file [(["tmp"], Entry.dir), (["tmp", "sb"], Entry.dir)] 5 ⟨["tmp", "sb"]⟩
        ["home", "user"] (Cand.mk false ["a.py"]) [120, 61, 49] .utf8 true =
      ({ success := false, filepath := some (Cand.mk false ["a.py"]),
         error := some (.securityViolation (Cand.mk false ["a.py"]) ["tmp", "sb"]) },
       [(["tmp"], Entry.dir), (["tmp", "sb"], Entry.dir)])) ∧
    fsLookup (write_file [(["tmp"], Entry.dir), (["tmp", "sb"], Entry.dir)] 5 ⟨["tmp", "sb"]⟩
        ["home", "user"] (Cand.mk false ["a.py"]) [120, 61, 49] .utf8 true).2
        ["tmp", "sb", "a.py"] = none ∧
    (write_file [(["tmp"], Entry.dir), (["tmp", "sb"], Entry.dir)] 5 ⟨["tmp", "sb"]⟩
        ["tmp", "sb"] (Cand.mk false ["a.py"]) [120, 61, 49] .utf8 true).1.success = true := by
  decide

/-! ### Result well-formedness (claims C6 and C7) -/

theorem read_file_wf (fs : Fs) (sm : SandboxManager) (cwd : FPath) (p : Cand) (enc : Enc) :
    ((read_file fs sm cwd p enc).success = true ∧ (read_file fs sm cwd p enc).error = none) ∨
    ((read_file fs sm cwd p enc).success = false ∧
      (read_file fs sm cwd p enc).error.isSome = true ∧
      (read_file fs sm cwd p enc).content = none) := by
  unfold read_file
  split
  · exact Or.inr ⟨rfl, rfl, rfl⟩
  · split
    · exact Or.inr ⟨rfl, rfl, rfl⟩
    · exact Or.inr ⟨rfl, rfl, rfl⟩
    · exact Or.inr ⟨rfl, rfl, rfl⟩
    · exact Or.inl ⟨rfl, rfl⟩

theorem write_file_wf (fs : Fs) (now : Nat) (sm : SandboxManager) (cwd : FPath)
    (p : Cand) (content : List Nat) (enc : Enc) (b : Bool) :
    ((write_file fs now sm cwd p content enc b).1.success = true ∧
      (write_file fs now sm cwd p content enc b).1.error = none) ∨
    ((write_file fs now sm cwd p content enc b).1.success = false ∧
      (write_file fs now sm cwd p content enc b).1.error.isSome = true ∧
      (write_file fs now sm cwd p content enc b).1.content = none) := by
  unfold write_file
  dsimp only
  repeat' split
  all_goals first
    | exact Or.inl ⟨rfl, rfl⟩
    | exact Or.inr ⟨rfl, rfl, rfl⟩

/-! ### Claim C6 -/

/-- C6: for every input (any path, content, encoding and filesystem
state) the public operations return a `FileOperationResult` value: the
embedding is total, and every failure is converted to an error-classified
result at the outermost point of the operation — the result either
succeeds or carries an error, never a third outcome (a raw fault crossing
the boundary has no representation in the return type). -/
theorem C6_operations_return_classified_results
    (fs : Fs) (now : Nat) (sm : SandboxManager) (cwd : FPath) (p : Cand)
    (content : List Nat) (enc : Enc) (b : Bool) :
    ((read_file fs sm cwd p enc).success = true ∨
      (read_file fs sm cwd p enc).error.isSome = true) ∧
    ((write_file fs now sm cwd p content enc b).1.success = true ∨
      (write_file fs now sm cwd p content enc b).1.error.isSome = true) := by
  constructor
  · rcases read_file_wf fs sm cwd p enc with h | h
    · exact Or.inl h.1
    · exact Or.inr h.2.1
  · rcases write_file_wf fs now sm cwd p content enc b with h | h
    · exact Or.inl h.1
    · exact Or.inr h.2.1

/-! ### Claim C7 -/

/-- C7: every `FileOperationResult` returned by `read_file` or
`write_file` satisfies the result invariant: a success carries no error
and a failure carries no content. -/
theorem C7_result_invariant
    (fs : Fs) (now : Nat) (sm : SandboxManager) (cwd : FPath) (p : Cand)
    (content : List Nat) (enc : Enc) (b : Bool) :
    ((read_file fs sm cwd p enc).success = true →
      (read_file fs sm cwd p enc).error = none) ∧
    ((read_file fs sm cwd p enc).success = false →
      (read_file fs sm cwd p enc).content = none) ∧
    ((write_file fs now sm cwd p content enc b).1.success = true →
      (write_file fs now sm cwd p content enc b).1.error = none) ∧
    ((write_file fs now sm cwd p content enc b).1.success = false →
      (write_file fs now sm cwd p content enc b).1.content = none) := by
  refine ⟨?_, ?_, ?_, ?_⟩
  · intro hs
    rcases read_file_wf fs sm cwd p enc with h | h
    · exact h.2
    · rw [hs] at h; cases h.1
  · intro hs
    rcases read_file_wf fs sm cwd p enc with h | h
    · rw [hs] at h; cases h.1
    · exact h.2.2
  · intro hs
    rcases write_file_wf fs now sm cwd p content enc b with h | h
    · exact h.2
    · rw [hs] at h; cases h.1
  · intro hs
    rcases write_file_wf fs now sm cwd p content enc b with h | h
    · rw [hs] at h; cases h.1
    · exact h.2.2

/-! ### Path-shape lemmas for the write pipeline -/

theorem fsLookup_nil {fs : Fs} : fsLookup fs [] = none := by
  simp [fsLookup]

theorem tempPath_ne_nil (q : FPath) : tempPath q ≠ [] := by
  unfold tempPath
  simp

theorem backupPath_ne_nil (q : FPath) (now : Nat) : backupPath q now ≠ [] := by
  unfold backupPath
  simp

theorem strAppend_ne {s t : String} (h : t.length ≠ 0) : s ++ t ≠ s := by
  intro he
  have hl := congrArg String.length he
  rw [String.length_append] at hl
  omega

theorem concat_dropLast_ne {q : FPath} (hq : q ≠ []) {x : String}
    (hx : x ≠ q.getLastD "") : q.dropLast ++ [x] ≠ q := by
  intro h
  conv at h => rhs; rw [← List.dropLast_append_getLast hq]
  have h2 := List.append_cancel_left h
  have h3 : x = q.getLast hq := by injection h2
  apply hx
  rw [h3, List.getLastD_eq_getLast? "" q, List.getLast?_eq_getLast q hq]
  rfl

theorem tempPath_ne_self (q : FPath) : tempPath q ≠ q := by
  by_cases hq : q = []
  · subst hq
    exact tempPath_ne_nil []
  · exact concat_dropLast_ne hq (strAppend_ne (by decide))

theorem backupPath_ne_self (q : FPath) (now : Nat) : backupPath q now ≠ q := by
  by_cases hq : q = []
  · subst hq
    exact backupPath_ne_nil [] now
  · refine concat_dropLast_ne hq ?_
    intro he
    have hl := congrArg String.length he
    rw [String.length_append, String.length_append] at hl
    have h5 : (".bak." : String).length = 5 := rfl
    omega

theorem tempPath_ne_backupPath (q : FPath) (now : Nat) :
    tempPath q ≠ backupPath q now := by
  unfold tempPath backupPath
  intro h
  have h2 := List.append_cancel_left h
  have h3 : q.getLastD "" ++ ".tmp" = q.getLastD "" ++ ".bak." ++ Nat.repr now := by
    injection h2
  have hl := congrArg String.length h3
  rw [String.length_append, String.length_append, String.length_append] at hl
  have h4 : (".tmp" : String).length = 4 := rfl
  have h5 : (".bak." : String).length = 5 := rfl
  omega

theorem tempPath_length (q : FPath) : (tempPath q).length = q.dropLast.length + 1 := by
  simp [tempPath]

theorem backupPath_length (q : FPath) (now : Nat) :
    (backupPath q now).length = q.dropLast.length + 1 := by
  simp [backupPath]

/-! ### Preservation lemmas for the write pipeline -/

theorem mkdirOne_ok_lookup {fs fs1 : Fs} {pth : FPath} (h : mkdirOne fs pth = .ok fs1)
    {r : FPath} (hr : r ≠ pth) : fsLookup fs1 r = fsLookup fs r := by
  unfold mkdirOne at h
  split at h
  · injection h with h
    subst h
    exact fsLookup_set_ne hr
  · injection h with h
    subst h
    rfl
  · exact StepOut.noConfusion h

theorem mkdirPath_lookup_keep :
    ∀ (rest : List String) (fs : Fs) (acc : FPath) (fs1 : Fs),
      mkdirPath fs acc rest = .ok fs1 →
      ∀ r : FPath, acc.length + rest.length < r.length →
        fsLookup fs1 r = fsLookup fs r := by
  intro rest
  induction rest with
  | nil =>
    intro fs acc fs1 h r _
    rw [mkdirPath] at h
    injection h with h
    subst h
    rfl
  | cons c rest ih =>
    intro fs acc fs1 h r hr
    rw [mkdirPath] at h
    revert h
    cases hone : mkdirOne fs (acc ++ [c]) with
    | fail fsx =>
      intro h
      exact StepOut.noConfusion h
    | ok fsx =>
      intro h
      have hne : r ≠ acc ++ [c] := by
        intro he
        subst he
        simp only [List.length_append, List.length_cons, List.length_nil] at hr
        omega
      have h2 := ih fsx (acc ++ [c]) fs1 h r (by simp at hr ⊢; omega)
      rw [h2, mkdirOne_ok_lookup hone hne]

theorem mkdirParents_lookup_keep {fs fs1 : Fs} {d : FPath}
    (h : mkdirParents fs d = .ok fs1) {r : FPath} (hr : d.length < r.length) :
    fsLookup fs1 r = fsLookup fs r :=
  mkdirPath_lookup_keep d fs [] fs1 h r (by simpa using hr)

theorem backupStep_lookup_ne {b : Bool} {fs1 : Fs} {now : Nat} {safe r : FPath}
    (h : r ≠ backupPath safe now) :
    fsLookup (backupStep b fs1 now safe).2 r = fsLookup fs1 r := by
  unfold backupStep
  split
  · unfold createBackupOp
    split
    · exact fsLookup_set_ne h
    · rfl
  · rfl

/-- The shapes of `fsLookup` output on which `open(..., "w")` can proceed
in this embedding (no directory, no symbolic link at the target). -/
def NotDirOrLink : Option Entry → Prop
  | some .dir => False
  | some (.symlink _) => False
  | _ => True

theorem validate_path_ok {fs : Fs} {sm : SandboxManager} {cwd : FPath} {p : Cand} {q : FPath}
    (hres : resolveCand fs cwd p = .ok q) (hin : sm.sandbox_root.isPrefixOf q = true) :
    validate_path fs sm cwd p = .ok q := by
  unfold validate_path
  rw [hres]
  dsimp only
  rw [if_pos hin]

theorem writeTextOp_ok_run {fs : Fs} {now : Nat} {pth : FPath} {enc : Enc}
    {s bytes : List Nat} (hp : pth ≠ []) (hnd : NotDirOrLink (fsLookup fs pth))
    (henc : encodeE enc s = some bytes) :
    writeTextOp fs now pth enc s = .ok (fsSet fs pth (.file bytes now)) := by
  unfold writeTextOp
  rw [if_neg hp]
  revert hnd
  cases hl : fsLookup fs pth with
  | none =>
    intro _
    dsimp only
    rw [henc]
  | some e =>
    cases e with
    | file d m =>
      intro _
      dsimp only
      rw [henc]
    | dir =>
      intro hnd
      exact hnd.elim
    | symlink t =>
      intro hnd
      exact hnd.elim

theorem replaceOp_ok_run {fs : Fs} {src dst : FPath} {e : Entry}
    (hsrc : fsLookup fs src = some e) (hdst : fsLookup fs dst ≠ some Entry.dir) :
    replaceOp fs src dst = .ok (fsSet (fsErase fs src) dst e) := by
  unfold replaceOp
  rw [hsrc]
  dsimp only
  revert hdst
  cases hl : fsLookup fs dst with
  | none =>
    intro _
    rfl
  | some e2 =>
    cases e2 with
    | dir =>
      intro hdst
      exact absurd rfl hdst
    | file d m =>
      intro _
      rfl
    | symlink t =>
      intro _
      rfl

/-- Full evaluation of a successful `write_file` under explicit
preconditions: target resolves in-sandbox, parents can be created, the
temporary slot is writable, the target is not a directory and the
content encodes. -/
theorem write_file_run {fs fs1 : Fs} {now : Nat} {sm : SandboxManager} {cwd : FPath}
    {p : Cand} {q : FPath} {content bytes : List Nat} {enc : Enc} {b : Bool}
    (hq : resolveCand fs cwd p = .ok q)
    (hin : sm.sandbox_root.isPrefixOf q = true)
    (hqn : q ≠ [])
    (hmk : mkdirParents fs q.dropLast = .ok fs1)
    (htmp : NotDirOrLink (fsLookup (backupStep b fs1 now q).2 (tempPath q)))
    (htgt : fsLookup (backupStep b fs1 now q).2 q ≠ some Entry.dir)
    (henc : encodeE enc content = some bytes) :
    write_file fs now sm cwd p content enc b =
      ({ success := true, filepath := some ⟨true, q⟩,
         metadata := { size_bytes := some bytes.length, encoding := some enc,
                       line_count := some (countNl content + 1),
                       backup_created := some (backupStep b fs1 now q).1.isSome,
                       backup_path := (backupStep b fs1 now q).1 } },
       fsSet (fsErase (fsSet (backupStep b fs1 now q).2 (tempPath q) (.file bytes now))
         (tempPath q)) q (.file bytes now)) := by
  unfold write_file
  rw [validate_path_ok hq hin]
  dsimp only
  rw [hmk]
  dsimp only
  rw [writeTextOp_ok_run (tempPath_ne_nil q) htmp henc]
  dsimp only
  have hsrc : fsLookup (fsSet (backupStep b fs1 now q).2 (tempPath q) (Entry.file bytes now))
      (tempPath q) = some (Entry.file bytes now) :=
    fsLookup_set_self (tempPath_ne_nil q)
  have hdst : fsLookup (fsSet (backupStep b fs1 now q).2 (tempPath q) (Entry.file bytes now)) q ≠
      some Entry.dir := by
    rw [fsLookup_set_ne (fun he => tempPath_ne_self q he.symm)]
    exact htgt
  rw [replaceOp_ok_run hsrc hdst]
  dsimp only
  rw [fsLookup_set_self hqn]

/-! ### Claim C2 -/

/-- C2: overwriting an existing in-sandbox file with
`create_backup = true` succeeds, afterwards a backup file exists holding
the old bytes while the target holds the new bytes, and the result
metadata records the backup flag and the backup path. -/
theorem C2_backup_preserves_old_content
    (fs fs1 : Fs) (now mt : Nat) (sm : SandboxManager) (cwd : FPath) (p : Cand)
    (q : FPath) (c1 c2 bytes : List Nat) (enc : Enc)
    (hq : resolveCand fs cwd p = .ok q)
    (hin : sm.sandbox_root.isPrefixOf q = true)
    (hmk : mkdirParents fs q.dropLast = .ok fs1)
    (hfile : fsLookup fs q = some (.file c1 mt))
    (htmp : fsLookup fs (tempPath q) = none)
    (henc : encodeE enc c2 = some bytes) :
    (write_file fs now sm cwd p c2 enc true).1.success = true ∧
    (write_file fs now sm cwd p c2 enc true).1.metadata.backup_created = some true ∧
    (write_file fs now sm cwd p c2 enc true).1.metadata.backup_path =
      some (backupPath q now) ∧
    fsLookup (write_file fs now sm cwd p c2 enc true).2 (backupPath q now) =
      some (.file c1 now) ∧
    fsLookup (write_file fs now sm cwd p c2 enc true).2 q = some (.file bytes now) := by
  have hqn : q ≠ [] := by
    intro he
    subst he
    rw [fsLookup_nil] at hfile
    cases hfile
  have hqlen : 0 < q.length := List.length_pos.mpr hqn
  have hdrop : q.dropLast.length = q.length - 1 := by
    simp [List.length_dropLast]
  have hf1 : fsLookup fs1 q = some (.file c1 mt) := by
    rw [mkdirParents_lookup_keep hmk (by omega)]
    exact hfile
  have hbk : backupStep true fs1 now q =
      (some (backupPath q now), fsSet fs1 (backupPath q now) (.file c1 now)) := by
    unfold backupStep
    rw [if_pos ⟨rfl, by rw [hf1]; rfl⟩]
    unfold createBackupOp
    rw [hf1]
  have htlen : (tempPath q).length = q.length := by
    rw [tempPath_length]
    omega
  have hf1t : fsLookup fs1 (tempPath q) = none := by
    rw [mkdirParents_lookup_keep hmk (by omega)]
    exact htmp
  have htmp2 : fsLookup (backupStep true fs1 now q).2 (tempPath q) = none := by
    rw [hbk]
    dsimp only
    rw [fsLookup_set_ne (tempPath_ne_backupPath q now)]
    exact hf1t
  have htgt2 : fsLookup (backupStep true fs1 now q).2 q = some (.file c1 mt) := by
    rw [hbk]
    dsimp only
    rw [fsLookup_set_ne (fun he => backupPath_ne_self q now he.symm)]
    exact hf1
  have hrun := write_file_run hq hin hqn hmk
    (by rw [htmp2]; trivial) (by rw [htgt2]; intro h; cases h) henc
  rw [hrun]
  dsimp only
  rw [hbk]
  dsimp only
  refine ⟨rfl, rfl, rfl, ?_, ?_⟩
  · rw [fsLookup_set_ne (fun he => backupPath_ne_self q now he),
      fsLookup_erase_ne (fun he => tempPath_ne_backupPath q now he.symm),
      fsLookup_set_ne (fun he => tempPath_ne_backupPath q now he.symm)]
    exact fsLookup_set_self (backupPath_ne_nil q now)
  · exact fsLookup_set_self hqn

theorem C2_backup_preserves_old_content_witness :
    (write_file
        [(["tmp"], Entry.dir), (["tmp", "sb"], Entry.dir),
         (["tmp", "sb", "a.py"], Entry.file [120, 61, 49] 1)]
        7 ⟨["tmp", "sb"]⟩ ["tmp", "sb"] (Cand.mk false ["a.py"]) [120, 61, 50] .utf8
        true).1.success = true ∧
    (write_file
        [(["tmp"], Entry.dir), (["tmp", "sb"], Entry.dir),
         (["tmp", "sb", "a.py"], Entry.file [120, 61, 49] 1)]
        7 ⟨["tmp", "sb"]⟩ ["tmp", "sb"] (Cand.mk false ["a.py"]) [120, 61, 50] .utf8
        true).1.metadata.backup_created = some true ∧
    (write_file
        [(["tmp"], Entry.dir), (["tmp", "sb"], Entry.dir),
         (["tmp", "sb", "a.py"], Entry.file [120, 61, 49] 1)]
        7 ⟨["tmp", "sb"]⟩ ["tmp", "sb"] (Cand.mk false ["a.py"]) [120, 61, 50] .utf8
        true).1.metadata.backup_path = some ["tmp", "sb", "a.py.bak.7"] ∧
    fsLookup (write_file
        [(["tmp"], Entry.dir), (["tmp", "sb"], Entry.dir),
         (["tmp", "sb", "a.py"], Entry.file [120, 61, 49] 1)]
        7 ⟨["tmp", "sb"]⟩ ["tmp", "sb"] (Cand.mk false ["a.py"]) [120, 61, 50] .utf8
        true).2 ["tmp", "sb", "a.py.bak.7"] = some (.file [120, 61, 49] 7) ∧
    fsLookup (write_file
        [(["tmp"], Entry.dir), (["tmp", "sb"], Entry.dir),
         (["tmp", "sb", "a.py"], Entry.file [120, 61, 49] 1)]
        7 ⟨["tmp", "sb"]⟩ ["tmp", "sb"] (Cand.mk false ["a.py"]) [120, 61, 50] .utf8
        true).2 ["tmp", "sb", "a.py"] = some (.file [120, 61, 50] 7) := by
  have h := C2_backup_preserves_old_content
    [(["tmp"], Entry.dir), (["tmp", "sb"], Entry.dir),
     (["tmp", "sb", "a.py"], Entry.file [120, 61, 49] 1)]
    [(["tmp"], Entry.dir), (["tmp", "sb"], Entry.dir),
     (["tmp", "sb", "a.py"], Entry.file [120, 61, 49] 1)]
    7 1 ⟨["tmp", "sb"]⟩ ["tmp", "sb"] (Cand.mk false ["a.py"]) ["tmp", "sb", "a.py"]
    [120, 61, 49] [120, 61, 50] [120, 61, 50] .utf8
    (by decide) (by decide) (by decide) (by decide) (by decide) (by decide)
  exact h

/-! ### Claim C10 -/

/-- C10: `write_file` stages its content at the deterministic sibling
path obtained by appending `.tmp` to the target's name; a pre-existing
regular file at that temporary path is silently overwritten (the write
still succeeds), and after a successful write no entry remains at the
temporary path — it has been renamed onto the target. -/
theorem C10_temp_staging_deterministic
    (fs fs1 : Fs) (now mt : Nat) (sm : SandboxManager) (cwd : FPath) (p : Cand)
    (q : FPath) (content bytes d : List Nat) (enc : Enc) (b : Bool)
    (hq : resolveCand fs cwd p = .ok q)
    (hin : sm.sandbox_root.isPrefixOf q = true)
    (hqn : q ≠ [])
    (hmk : mkdirParents fs q.dropLast = .ok fs1)
    (htmp : fsLookup fs (tempPath q) = some (.file d mt))
    (htgt : fsLookup fs q ≠ some Entry.dir)
    (henc : encodeE enc content = some bytes) :
    tempPath q = q.dropLast ++ [q.getLast hqn ++ ".tmp"] ∧
    (write_file fs now sm cwd p content enc b).1.success = true ∧
    fsLookup (write_file fs now sm cwd p content enc b).2 (tempPath q) = none ∧
    fsLookup (write_file fs now sm cwd p content enc b).2 q = some (.file bytes now) := by
  have hqlen : 0 < q.length := List.length_pos.mpr hqn
  have hdrop : q.dropLast.length = q.length - 1 := by
    simp [List.length_dropLast]
  have htlen : (tempPath q).length = q.length := by
    rw [tempPath_length]
    omega
  have hbkq : fsLookup (backupStep b fs1 now q).2 q = fsLookup fs q := by
    rw [backupStep_lookup_ne (fun he => backupPath_ne_self q now he.symm),
      mkdirParents_lookup_keep hmk (by omega)]
  have hbkt : fsLookup (backupStep b fs1 now q).2 (tempPath q) = some (.file d mt) := by
    rw [backupStep_lookup_ne (tempPath_ne_backupPath q now),
      mkdirParents_lookup_keep hmk (by omega)]
    exact htmp
  have hrun := write_file_run hq hin hqn hmk
    (by rw [hbkt]; trivial) (by rw [hbkq]; exact htgt) henc
  rw [hrun]
  dsimp only
  refine ⟨?_, rfl, ?_, fsLookup_set_self hqn⟩
  · unfold tempPath
    rw [List.getLastD_eq_getLast? "" q, List.getLast?_eq_getLast q hqn]
    rfl
  · rw [fsLookup_set_ne (tempPath_ne_self q), fsLookup_erase_self]

theorem C10_temp_staging_deterministic_witness :
    (write_file
        [(["tmp"], Entry.dir), (["tmp", "sb"], Entry.dir),
         (["tmp", "sb", "a.py.tmp"], Entry.file [9] 0)]
        5 ⟨["tmp", "sb"]⟩ ["tmp", "sb"] (Cand.mk false ["a.py"]) [120, 61, 49] .utf8
        true).1.success = true ∧
    fsLookup (write_file
        [(["tmp"], Entry.dir), (["tmp", "sb"], Entry.dir),
         (["tmp", "sb", "a.py.tmp"], Entry.file [9] 0)]
        5 ⟨["tmp", "sb"]⟩ ["tmp", "sb"] (Cand.mk false ["a.py"]) [120, 61, 49] .utf8
        true).2 ["tmp", "sb", "a.py.tmp"] = none ∧
    fsLookup (write_file
        [(["tmp"], Entry.dir), (["tmp", "sb"], Entry.dir),
         (["tmp", "sb", "a.py.tmp"], Entry.file [9] 0)]
        5 ⟨["tmp", "sb"]⟩ ["tmp", "sb"] (Cand.mk false ["a.py"]) [120, 61, 49] .utf8
        true).2 ["tmp", "sb", "a.py"] = some (.file [120, 61, 49] 5) := by
  have h := C10_temp_staging_deterministic
    [(["tmp"], Entry.dir), (["tmp", "sb"], Entry.dir),
     (["tmp", "sb", "a.py.tmp"], Entry.file [9] 0)]
    [(["tmp"], Entry.dir), (["tmp", "sb"], Entry.dir),
     (["tmp", "sb", "a.py.tmp"], Entry.file [9] 0)]
    5 0 ⟨["tmp", "sb"]⟩ ["tmp", "sb"] (Cand.mk false ["a.py"]) ["tmp", "sb", "a.py"]
    [120, 61, 49] [120, 61, 49] [9] .utf8 true
    (by decide) (by decide) (by decide) (by decide) (by decide) (by decide) (by decide)
  exact ⟨h.2.1, h.2.2.1, h.2.2.2⟩

/-! ### Claim C4 -/

theorem writeTextOp_ok_inv {fs fs' : Fs} {now : Nat} {pth : FPath} {enc : Enc}
    {s : List Nat} (h : writeTextOp fs now pth enc s = .ok fs') :
    ∃ bytes, encodeE enc s = some bytes ∧ fs' = fsSet fs pth (.file bytes now) := by
  unfold writeTextOp at h
  split at h
  · exact StepOut.noConfusion h
  · split at h
    · exact StepOut.noConfusion h
    · exact StepOut.noConfusion h
    · split at h
      · rename_i bytes henc
        injection h with h
        exact ⟨bytes, henc, h.symm⟩
      · exact StepOut.noConfusion h

/-- C4: if `write_file` fails during the final replace (after the
temporary file has been written), the target file's entry — in
particular its original content — is unchanged, and the call returns a
failure result instead of raising. -/
theorem C4_failed_replace_leaves_target_intact
    (fs fs1 fs3 : Fs) (now : Nat) (sm : SandboxManager) (cwd : FPath) (p : Cand)
    (q : FPath) (content : List Nat) (enc : Enc) (b : Bool)
    (hq : resolveCand fs cwd p = .ok q)
    (hin : sm.sandbox_root.isPrefixOf q = true)
    (hmk : mkdirParents fs q.dropLast = .ok fs1)
    (hwt : writeTextOp (backupStep b fs1 now q).2 now (tempPath q) enc content = .ok fs3)
    (hrep : replaceOp fs3 (tempPath q) q = .error ()) :
    write_file fs now sm cwd p content enc b =
      ({ success := false, filepath := some p, error := some .writeFailed }, fs3) ∧
    fsLookup fs3 q = fsLookup fs q := by
  constructor
  · unfold write_file
    rw [validate_path_ok hq hin]
    dsimp only
    rw [hmk]
    dsimp only
    rw [hwt]
    dsimp only
    rw [hrep]
  · obtain ⟨bytes, henc, hfs3⟩ := writeTextOp_ok_inv hwt
    subst hfs3
    rw [fsLookup_set_ne (fun he => tempPath_ne_self q he.symm),
      backupStep_lookup_ne (fun he => backupPath_ne_self q now he.symm)]
    by_cases hqn : q = []
    · subst hqn
      rw [fsLookup_nil, fsLookup_nil]
    · have hqlen : 0 < q.length := List.length_pos.mpr hqn
      have hdrop : q.dropLast.length = q.length - 1 := by
        simp [List.length_dropLast]
      exact mkdirParents_lookup_keep hmk (by omega)

theorem C4_failed_replace_leaves_target_intact_witness :
    write_file
        [(["tmp"], Entry.dir), (["tmp", "sb"], Entry.dir), (["tmp", "sb", "d"], Entry.dir)]
        5 ⟨["tmp", "sb"]⟩ ["tmp", "sb"] (Cand.mk false ["d"]) [120] .utf8 true =
      ({ success := false, filepath := some (Cand.mk false ["d"]),
         error := some .writeFailed },
       [(["tmp", "sb", "d.tmp"], Entry.file [120] 5),
        (["tmp"], Entry.dir), (["tmp", "sb"], Entry.dir), (["tmp", "sb", "d"], Entry.dir)]) ∧
    fsLookup
        [(["tmp", "sb", "d.tmp"], Entry.file [120] 5),
         (["tmp"], Entry.dir), (["tmp", "sb"], Entry.dir), (["tmp", "sb", "d"], Entry.dir)]
        ["tmp", "sb", "d"] =
      fsLookup
        [(["tmp"], Entry.dir), (["tmp", "sb"], Entry.dir), (["tmp", "sb", "d"], Entry.dir)]
        ["tmp", "sb", "d"] := by
  have h := C4_failed_replace_leaves_target_intact
    [(["tmp"], Entry.dir), (["tmp", "sb"], Entry.dir), (["tmp", "sb", "d"], Entry.dir)]
    [(["tmp"], Entry.dir), (["tmp", "sb"], Entry.dir), (["tmp", "sb", "d"], Entry.dir)]
    [(["tmp", "sb", "d.tmp"], Entry.file [120] 5),
     (["tmp"], Entry.dir), (["tmp", "sb"], Entry.dir), (["tmp", "sb", "d"], Entry.dir)]
    5 ⟨["tmp", "sb"]⟩ ["tmp", "sb"] (Cand.mk false ["d"]) ["tmp", "sb", "d"]
    [120] .utf8 true
    (by decide) (by decide) (by decide) (by decide) (by decide)
  exact h

/-! ### UTF-8 codec round trip -/

theorem decodeOne_encodeChar {c : Nat} {e : List Nat}
    (henc : encodeUtf8Char c = some e) (rest : List Nat) :
    ∃ b tl, e = b :: tl ∧ decodeOne b (tl ++ rest) = some (c, rest) := by
  unfold encodeUtf8Char at henc
  by_cases h1 : c < 0x80
  · rw [if_pos h1] at henc
    injection henc with henc
    subst henc
    refine ⟨c, [], rfl, ?_⟩
    unfold decodeOne
    rw [if_pos h1, List.nil_append]
  · rw [if_neg h1] at henc
    by_cases h2 : c < 0x800
    · rw [if_pos h2] at henc
      injection henc with henc
      subst henc
      refine ⟨0xC0 + c / 0x40, [0x80 + c % 0x40], rfl, ?_⟩
      unfold decodeOne
      rw [if_neg (by omega), if_neg (by omega), if_pos (by omega)]
      simp only [List.cons_append, List.nil_append]
      rw [if_pos (by omega),
        show (0xC0 + c / 0x40 - 0xC0) * 0x40 + (0x80 + c % 0x40 - 0x80) = c by omega]
    · rw [if_neg h2] at henc
      by_cases h3 : 0xD800 ≤ c ∧ c < 0xE000
      · rw [if_pos h3] at henc
        exact Option.noConfusion henc
      · rw [if_neg h3] at henc
        by_cases h4 : c < 0x10000
        · rw [if_pos h4] at henc
          injection henc with henc
          subst henc
          refine ⟨0xE0 + c / 0x1000, [0x80 + c / 0x40 % 0x40, 0x80 + c % 0x40], rfl, ?_⟩
          unfold decodeOne
          rw [if_neg (by omega), if_neg (by omega), if_neg (by omega), if_pos (by omega)]
          simp only [List.cons_append, List.nil_append]
          rw [if_pos (by omega),
            show (0xE0 + c / 0x1000 - 0xE0) * 0x1000 + (0x80 + c / 0x40 % 0x40 - 0x80) * 0x40 +
              (0x80 + c % 0x40 - 0x80) = c by omega]
        · rw [if_neg h4] at henc
          by_cases h5 : c < 0x110000
          · rw [if_pos h5] at henc
            injection henc with henc
            subst henc
            refine ⟨0xF0 + c / 0x40000,
              [0x80 + c / 0x1000 % 0x40, 0x80 + c / 0x40 % 0x40, 0x80 + c % 0x40], rfl, ?_⟩
            unfold decodeOne
            rw [if_neg (by omega), if_neg (by omega), if_neg (by omega), if_neg (by omega),
              if_pos (by omega)]
            simp only [List.cons_append, List.nil_append]
            rw [if_pos (by omega),
              show (0xF0 + c / 0x40000 - 0xF0) * 0x40000 +
                (0x80 + c / 0x1000 % 0x40 - 0x80) * 0x1000 +
                (0x80 + c / 0x40 % 0x40 - 0x80) * 0x40 + (0x80 + c % 0x40 - 0x80) = c by omega]
          · rw [if_neg h5] at henc
            exact Option.noConfusion henc

theorem decodeLoop_encode : ∀ (s : List Nat) {bs : List Nat} (fuel : Nat),
    encodeUtf8 s = some bs → bs.length ≤ fuel → decodeLoop fuel bs = some s := by
  intro s
  induction s with
  | nil =>
    intro bs fuel h _
    rw [encodeUtf8] at h
    injection h with h
    subst h
    cases fuel with
    | zero => rfl
    | succ f => rfl
  | cons c srest ih =>
    intro bs fuel h hlen
    rw [encodeUtf8] at h
    revert h
    cases he : encodeUtf8Char c with
    | none =>
      intro h
      exact Option.noConfusion h
    | some e =>
      cases hr : encodeUtf8 srest with
      | none =>
        intro h
        exact Option.noConfusion h
      | some bs2 =>
        intro h
        dsimp only at h
        injection h with h
        subst h
        obtain ⟨b, tl, hbtl, hone⟩ := decodeOne_encodeChar he bs2
        subst hbtl
        rw [List.cons_append] at hlen ⊢
        cases fuel with
        | zero =>
          exfalso
          simp at hlen
        | succ f =>
          rw [decodeLoop, hone]
          dsimp only
          rw [ih f hr (by simp at hlen ⊢; omega)]

theorem decodeUtf8_encodeUtf8 {s bs : List Nat} (h : encodeUtf8 s = some bs) :
    decodeUtf8 bs = some s :=
  decodeLoop_encode s bs.length h (Nat.le_refl _)


/-! ### Universal newlines and symlink-free preservation -/

theorem univNewlines_cons_ne {c : Nat} (hc : c ≠ 13) (rest : List Nat) :
    univNewlines (c :: rest) = c :: univNewlines rest := by
  cases rest with
  | nil => simp [univNewlines, hc]
  | cons d rest2 => simp [univNewlines, hc]

theorem univNewlines_id : ∀ {s : List Nat}, (∀ c ∈ s, c ≠ 13) → univNewlines s = s := by
  intro s
  induction s with
  | nil =>
    intro _
    rfl
  | cons c rest ih =>
    intro h
    rw [univNewlines_cons_ne (h c (List.mem_cons_self c rest)),
      ih (fun x hx => h x (List.mem_cons_of_mem c hx))]

theorem mem_fsErase {fs : Fs} {p : FPath} {x : FPath × Entry} (h : x ∈ fsErase fs p) :
    x ∈ fs := by
  induction fs with
  | nil => exact absurd h (List.not_mem_nil x)
  | cons y rest ih =>
    rw [fsErase] at h
    by_cases hy : y.1 = p
    · rw [if_pos hy] at h
      exact List.mem_cons_of_mem y (ih h)
    · rw [if_neg hy] at h
      rcases List.mem_cons.mp h with h | h
      · exact h ▸ List.mem_cons_self y rest
      · exact List.mem_cons_of_mem y (ih h)

theorem noSymlinks_erase {fs : Fs} {p : FPath} (h : NoSymlinks fs) :
    NoSymlinks (fsErase fs p) :=
  fun x hx => h x (mem_fsErase hx)

theorem noSymlinks_set {fs : Fs} {p : FPath} {e : Entry} (h : NoSymlinks fs)
    (he : entryIsSymlink e = false) : NoSymlinks (fsSet fs p e) := by
  intro x hx
  rcases List.mem_cons.mp hx with hx | hx
  · subst hx
    exact he
  · exact noSymlinks_erase h x hx

theorem mkdirOne_noSymlinks {fs fs1 : Fs} {pth : FPath} (hm : mkdirOne fs pth = .ok fs1)
    (h : NoSymlinks fs) : NoSymlinks fs1 := by
  unfold mkdirOne at hm
  split at hm
  · injection hm with hm
    subst hm
    exact noSymlinks_set h rfl
  · injection hm with hm
    subst hm
    exact h
  · exact StepOut.noConfusion hm

theorem mkdirPath_noSymlinks :
    ∀ (rest : List String) (fs : Fs) (acc : FPath) (fs1 : Fs),
      mkdirPath fs acc rest = .ok fs1 → NoSymlinks fs → NoSymlinks fs1 := by
  intro rest
  induction rest with
  | nil =>
    intro fs acc fs1 hm h
    rw [mkdirPath] at hm
    injection hm with hm
    subst hm
    exact h
  | cons c rest ih =>
    intro fs acc fs1 hm h
    rw [mkdirPath] at hm
    revert hm
    cases hone : mkdirOne fs (acc ++ [c]) with
    | fail fsx =>
      intro hm
      exact StepOut.noConfusion hm
    | ok fsx =>
      intro hm
      exact ih fsx (acc ++ [c]) fs1 hm (mkdirOne_noSymlinks hone h)

theorem backupStep_noSymlinks {b : Bool} {fs1 : Fs} {now : Nat} {safe : FPath}
    (h : NoSymlinks fs1) : NoSymlinks (backupStep b fs1 now safe).2 := by
  unfold backupStep
  split
  · unfold createBackupOp
    split
    · exact noSymlinks_set h rfl
    · exact h
  · exact h

/-! ### Inversion lemmas for a successful write -/

theorem validate_path_ok_inv {fs : Fs} {sm : SandboxManager} {cwd : FPath} {p : Cand}
    {q : FPath} (h : validate_path fs sm cwd p = .ok q) :
    resolveCand fs cwd p = .ok q ∧ sm.sandbox_root.isPrefixOf q = true := by
  unfold validate_path at h
  revert h
  cases hr : resolveCand fs cwd p with
  | error e =>
    intro h
    exact Except.noConfusion h
  | ok full =>
    intro h
    dsimp only at h
    by_cases hin : sm.sandbox_root.isPrefixOf full = true
    · rw [if_pos hin] at h
      injection h with h
      subst h
      exact ⟨rfl, hin⟩
    · rw [if_neg hin] at h
      exact Except.noConfusion h

theorem writeTextOp_ok_full_inv {fs fs' : Fs} {now : Nat} {pth : FPath} {enc : Enc}
    {s : List Nat} (h : writeTextOp fs now pth enc s = .ok fs') :
    pth ≠ [] ∧ NotDirOrLink (fsLookup fs pth) ∧
      ∃ bytes, encodeE enc s = some bytes ∧ fs' = fsSet fs pth (.file bytes now) := by
  unfold writeTextOp at h
  by_cases hp : pth = []
  · rw [if_pos hp] at h
    exact StepOut.noConfusion h
  · rw [if_neg hp] at h
    revert h
    cases hl : fsLookup fs pth with
    | some e =>
      cases e with
      | dir =>
        intro h
        exact StepOut.noConfusion h
      | symlink t =>
        intro h
        exact StepOut.noConfusion h
      | file d m =>
        intro h
        dsimp only at h
        refine ⟨hp, trivial, ?_⟩
        revert h
        cases he : encodeE enc s with
        | none =>
          intro h
          exact StepOut.noConfusion h
        | some bytes =>
          intro h
          injection h with h
          exact ⟨bytes, rfl, h.symm⟩
    | none =>
      intro h
      dsimp only at h
      refine ⟨hp, trivial, ?_⟩
      revert h
      cases he : encodeE enc s with
      | none =>
        intro h
        exact StepOut.noConfusion h
      | some bytes =>
        intro h
        injection h with h
        exact ⟨bytes, rfl, h.symm⟩

theorem replaceOp_ok_inv {fs : Fs} {src dst : FPath} {fs' : Fs}
    (h : replaceOp fs src dst = .ok fs') :
    fsLookup fs dst ≠ some Entry.dir := by
  unfold replaceOp at h
  revert h
  cases hs : fsLookup fs src with
  | none =>
    intro h
    exact Except.noConfusion h
  | some e =>
    intro h
    dsimp only at h
    revert h
    cases hd : fsLookup fs dst with
    | none =>
      intro _ hh
      exact Option.noConfusion hh
    | some e2 =>
      cases e2 with
      | dir =>
        intro h
        exact Except.noConfusion h
      | file d m =>
        intro _ hh
        injection hh with hh
        exact Entry.noConfusion hh
      | symlink t =>
        intro _ hh
        injection hh with hh
        exact Entry.noConfusion hh

/-- A successful `write_file` determines the whole run: the path resolved
in-sandbox, the content encoded, and the call rewrote the target through
the temporary sibling exactly as `write_file_run` states. -/
theorem write_file_success_run {fs : Fs} {now : Nat} {sm : SandboxManager} {cwd : FPath}
    {p : Cand} {content : List Nat} {enc : Enc} {b : Bool}
    (h : (write_file fs now sm cwd p content enc b).1.success = true) :
    ∃ q fs1 bytes,
      resolveCand fs cwd p = .ok q ∧ sm.sandbox_root.isPrefixOf q = true ∧ q ≠ [] ∧
      mkdirParents fs q.dropLast = .ok fs1 ∧ encodeE enc content = some bytes ∧
      write_file fs now sm cwd p content enc b =
        ({ success := true, filepath := some ⟨true, q⟩,
           metadata := { size_bytes := some bytes.length, encoding := some enc,
                         line_count := some (countNl content + 1),
                         backup_created := some (backupStep b fs1 now q).1.isSome,
                         backup_path := (backupStep b fs1 now q).1 } },
         fsSet (fsErase (fsSet (backupStep b fs1 now q).2 (tempPath q) (.file bytes now))
           (tempPath q)) q (.file bytes now)) := by
  unfold write_file at h
  revert h
  cases hval : validate_path fs sm cwd p with
  | error e =>
    intro h
    exact Bool.noConfusion h
  | ok safe =>
    intro h
    dsimp only at h
    revert h
    cases hmk : mkdirParents fs safe.dropLast with
    | fail fsx =>
      intro h
      exact Bool.noConfusion h
    | ok fs1 =>
      intro h
      dsimp only at h
      revert h
      cases hwt : writeTextOp (backupStep b fs1 now safe).2 now (tempPath safe) enc content with
      | fail fsx =>
        intro h
        exact Bool.noConfusion h
      | ok fs3 =>
        intro h
        dsimp only at h
        revert h
        cases hrep : replaceOp fs3 (tempPath safe) safe with
        | error e =>
          intro h
          exact Bool.noConfusion h
        | ok fs4 =>
          intro h
          dsimp only at h
          revert h
          cases hlk : fsLookup fs4 safe with
          | none =>
            intro h
            exact Bool.noConfusion h
          | some e =>
            cases e with
            | dir =>
              intro h
              exact Bool.noConfusion h
            | symlink t =>
              intro h
              exact Bool.noConfusion h
            | file bts mt =>
              intro _
              obtain ⟨hq, hin⟩ := validate_path_ok_inv hval
              obtain ⟨hpne, hnd, bytes, henc, hfs3⟩ := writeTextOp_ok_full_inv hwt
              have hqn : safe ≠ [] := by
                intro he
                rw [he, fsLookup_nil] at hlk
                exact Option.noConfusion hlk
              have htgt : fsLookup (backupStep b fs1 now safe).2 safe ≠ some Entry.dir := by
                have hrd := replaceOp_ok_inv hrep
                rw [hfs3, fsLookup_set_ne (fun he => tempPath_ne_self safe he.symm)] at hrd
                exact hrd
              exact ⟨safe, fs1, bytes, hq, hin, hqn, hmk, henc,
                write_file_run hq hin hqn hmk hnd htgt henc⟩

/-! ### Claim C5 -/

/-- C5 counterexample: the round trip is not the identity for content
containing a carriage return.  Writing `"a\r b"`-like content
(code points 97, 13, 98) succeeds, but reading it back yields
97, 10, 98: text-mode reading applies universal-newline translation
(`\r` becomes `\n`), which the claim's only allowed deviation (the
encoding fallback) does not cover. -/
theorem C5_roundtrip_counterexample :
    (write_file [(["tmp"], Entry.dir), (["tmp", "sb"], Entry.dir)] 5 ⟨["tmp", "sb"]⟩
        ["tmp", "sb"] (Cand.mk true ["tmp", "sb", "a.py"]) [97, 13, 98] .utf8
        true).1.success = true ∧
    (read_file (write_file [(["tmp"], Entry.dir), (["tmp", "sb"], Entry.dir)] 5 ⟨["tmp", "sb"]⟩
        ["tmp", "sb"] (Cand.mk true ["tmp", "sb", "a.py"]) [97, 13, 98] .utf8 true).2
        ⟨["tmp", "sb"]⟩ ["tmp", "sb"] (Cand.mk true ["tmp", "sb", "a.py"]) .utf8).success =
      true ∧
    (read_file (write_file [(["tmp"], Entry.dir), (["tmp", "sb"], Entry.dir)] 5 ⟨["tmp", "sb"]⟩
        ["tmp", "sb"] (Cand.mk true ["tmp", "sb", "a.py"]) [97, 13, 98] .utf8 true).2
        ⟨["tmp", "sb"]⟩ ["tmp", "sb"] (Cand.mk true ["tmp", "sb", "a.py"]) .utf8).content =
      some [97, 10, 98] ∧
    ¬ (read_file (write_file [(["tmp"], Entry.dir), (["tmp", "sb"], Entry.dir)] 5 ⟨["tmp", "sb"]⟩
        ["tmp", "sb"] (Cand.mk true ["tmp", "sb", "a.py"]) [97, 13, 98] .utf8 true).2
        ⟨["tmp", "sb"]⟩ ["tmp", "sb"] (Cand.mk true ["tmp", "sb", "a.py"]) .utf8).content =
      some [97, 13, 98] := by
  decide

/-- C5 (amended): in a symlink-free filesystem, for every path and every
content without carriage-return characters, a successful
`write_file(P, C)` (default UTF-8 encoding) followed by `read_file(P)`
returns success with content equal to C.  (For content containing
`\r` or `\r\n`, text-mode reading translates them to `\n`; successful
UTF-8 writes store valid UTF-8 bytes, so the documented Latin-1 fallback
is never taken on read-back.) -/
theorem C5_write_read_roundtrip_no_cr
    (fs : Fs) (now : Nat) (sm : SandboxManager) (cwd : FPath) (p : Cand)
    (content : List Nat) (b : Bool)
    (hns : NoSymlinks fs)
    (hsucc : (write_file fs now sm cwd p content .utf8 b).1.success = true)
    (hcr : ∀ c ∈ content, c ≠ 13) :
    (read_file (write_file fs now sm cwd p content .utf8 b).2 sm cwd p .utf8).success = true ∧
    (read_file (write_file fs now sm cwd p content .utf8 b).2 sm cwd p .utf8).content =
      some content := by
  obtain ⟨q, fs1, bytes, hq, hin, hqn, hmk, henc, heq⟩ := write_file_success_run hsucc
  rw [heq]
  dsimp only
  have hns4 : NoSymlinks (fsSet (fsErase (fsSet (backupStep b fs1 now q).2 (tempPath q)
      (.file bytes now)) (tempPath q)) q (.file bytes now)) :=
    noSymlinks_set (noSymlinks_erase (noSymlinks_set
      (backupStep_noSymlinks (mkdirPath_noSymlinks q.dropLast fs [] fs1 hmk hns)) rfl)) rfl
  have hq4 : resolveCand (fsSet (fsErase (fsSet (backupStep b fs1 now q).2 (tempPath q)
      (.file bytes now)) (tempPath q)) q (.file bytes now)) cwd p = .ok q := by
    rw [resolveCand_congr hns4 hns]
    exact hq
  unfold read_file
  rw [validate_path_ok hq4 hin]
  dsimp only
  rw [fsLookup_set_self hqn]
  dsimp only
  rw [show decodeE Enc.utf8 bytes = some content from decodeUtf8_encodeUtf8 henc]
  dsimp only
  rw [univNewlines_id hcr]
  exact ⟨rfl, rfl⟩

theorem C5_write_read_roundtrip_no_cr_witness :
    (write_file [(["tmp"], Entry.dir), (["tmp", "sb"], Entry.dir)] 5 ⟨["tmp", "sb"]⟩
        ["tmp", "sb"] (Cand.mk false ["a.py"]) [120, 61, 49, 10, 955] .utf8
        true).1.success = true ∧
    (read_file (write_file [(["tmp"], Entry.dir), (["tmp", "sb"], Entry.dir)] 5 ⟨["tmp", "sb"]⟩
        ["tmp", "sb"] (Cand.mk false ["a.py"]) [120, 61, 49, 10, 955] .utf8 true).2
        ⟨["tmp", "sb"]⟩ ["tmp", "sb"] (Cand.mk false ["a.py"]) .utf8).success = true ∧
    (read_file (write_file [(["tmp"], Entry.dir), (["tmp", "sb"], Entry.dir)] 5 ⟨["tmp", "sb"]⟩
        ["tmp", "sb"] (Cand.mk false ["a.py"]) [120, 61, 49, 10, 955] .utf8 true).2
        ⟨["tmp", "sb"]⟩ ["tmp", "sb"] (Cand.mk false ["a.py"]) .utf8).content =
      some [120, 61, 49, 10, 955] := by
  have h := C5_write_read_roundtrip_no_cr
    [(["tmp"], Entry.dir), (["tmp", "sb"], Entry.dir)] 5 ⟨["tmp", "sb"]⟩ ["tmp", "sb"]
    (Cand.mk false ["a.py"]) [120, 61, 49, 10, 955] true
    (by decide) (by decide) (by decide)
  exact ⟨by decide, h.1, h.2⟩
